import Mathlib

/-!
Verification of the durable batching layer of the asynchronous distributed
insert pipeline (`DistributedAsyncInsertBatch`) and of the Azure Blob Storage
endpoint-configuration validation (`AzureBlobStorageAuth.cpp`).

The batch header (`DistributedAsyncInsertBatch.h`) fixes the data model and
its default field values; the behaviour of the declared operations
(`accept`, `isEnoughSize`, `serialize`, `deserialize`, `valid`, `send`,
recovery) is modelled from the specification, since only the declarations of
those operations are part of this source tree.
-/

/-- Decidable equality for `Except`, used to evaluate codec results on
concrete inputs. -/
instance {ε α : Type} [DecidableEq ε] [DecidableEq α] : DecidableEq (Except ε α)
  | .error e, .error f =>
    if h : e = f then .isTrue (by rw [h])
    else .isFalse (fun hc => h (by cases hc; rfl))
  | .error _, .ok _ => .isFalse (fun hc => Except.noConfusion hc)
  | .ok _, .error _ => .isFalse (fun hc => Except.noConfusion hc)
  | .ok a, .ok b =>
    if h : a = b then .isTrue (by rw [h])
    else .isFalse (fun hc => h (by cases hc; rfl))

namespace DB

/-- Mirror of the `DistributedAsyncInsertBatch` class state
(`DistributedAsyncInsertBatch.h`, lines 31-48), with the default member
default member values of the C++ class. -/
structure DistributedAsyncInsertBatch where
  total_rows : Nat := 0
  total_bytes : Nat := 0
  files : List String := []
  recovered : Bool := false
  split_batch_on_failure : Bool := true
  fsync : Bool := false
  dir_fsync : Bool := false
  deriving DecidableEq

/-- Modelled from the spec: a spooled pending file, identified by its path and
carrying its own byte size and row count (spec section 3, PendingFile). -/
structure PendingFile where
  path : String
  rows : Nat
  bytes : Nat
  deriving DecidableEq

/-- Modelled from the spec: the configured accumulation thresholds (maximum
member count, rows and bytes); configuration is an external parameter
(spec section 4.1). -/
structure BatchThresholds where
  max_files : Nat
  max_rows : Nat
  max_bytes : Nat
  deriving DecidableEq

/-- Modelled from the spec: would appending `f` push a total past a configured
threshold (spec section 4.1)? -/
def wouldExceed (th : BatchThresholds) (b : DistributedAsyncInsertBatch)
    (f : PendingFile) : Bool :=
  th.max_rows < b.total_rows + f.rows
    || th.max_bytes < b.total_bytes + f.bytes
    || th.max_files < b.files.length + 1

/-- Modelled from the spec: append a file to the member sequence and update
both running sums (spec section 4.1, acceptance effect). -/
def addFile (b : DistributedAsyncInsertBatch) (f : PendingFile) :
    DistributedAsyncInsertBatch :=
  { b with
    files := b.files ++ [f.path]
    total_rows := b.total_rows + f.rows
    total_bytes := b.total_bytes + f.bytes }

/-- Modelled from the spec: `accept(file) -> bool`; rejects with no mutation
when a threshold would be exceeded, unless the batch is currently empty
(spec section 4.1). The implementation of accumulation is not part of this
source tree; only the class declaration is. -/
def accept (th : BatchThresholds) (b : DistributedAsyncInsertBatch)
    (f : PendingFile) : Bool × DistributedAsyncInsertBatch :=
  if !b.files.isEmpty && wouldExceed th b f then (false, b)
  else (true, addFile b f)

/-- Modelled from the spec: fold `accept` over a sequence of pending files. -/
def acceptAll (th : BatchThresholds) (b : DistributedAsyncInsertBatch)
    (fs : List PendingFile) : DistributedAsyncInsertBatch :=
  fs.foldl (fun b f => (accept th b f).2) b

/-- Modelled from the spec: `isEnoughSize()` reports whether the batch has
reached capacity, a pure function of current totals against the configured
limits (spec section 4.1). -/
def isEnoughSize (th : BatchThresholds) (b : DistributedAsyncInsertBatch) :
    Bool :=
  th.max_rows ≤ b.total_rows
    || th.max_bytes ≤ b.total_bytes
    || th.max_files ≤ b.files.length

/-! ### Descriptor codec (`current_batch.txt`) -/

/-- Decimal digit character for a digit value (0-9). -/
def digitChar : Nat → Char
  | 0 => '0' | 1 => '1' | 2 => '2' | 3 => '3' | 4 => '4'
  | 5 => '5' | 6 => '6' | 7 => '7' | 8 => '8' | 9 => '9'
  | _ => '0'

/-- Is `c` one of the characters `0`-`9`? -/
def isDigitChar (c : Char) : Bool :=
  '0' ≤ c && c ≤ '9'

/-- Numeric value of a digit character. -/
def charDigit (c : Char) : Nat :=
  c.toNat - 48

/-- Decimal digit characters of a positive `n`, most significant first;
`fuel` bounds the recursion depth (any `fuel ≥ n` is enough). -/
def natCharsAux : Nat → Nat → List Char
  | 0, _ => []
  | fuel + 1, n =>
    if n = 0 then [] else natCharsAux fuel (n / 10) ++ [digitChar (n % 10)]

/-- Decimal digit characters of `n`, most significant first. -/
def natChars (n : Nat) : List Char :=
  if n = 0 then ['0'] else natCharsAux (n + 1) n

/-- Parse an unsigned decimal integer: at least one character, all digits. -/
def parseNat (l : List Char) : Option Nat :=
  if l.isEmpty then none
  else if l.all isDigitChar then
    some (l.foldl (fun a c => a * 10 + charDigit c) 0)
  else none

/-- Split a character stream at newline characters; the final element is the
(possibly empty) residue after the last newline.  The stream ends with a
newline exactly when the final element is empty. -/
def splitNL : List Char → List (List Char)
  | [] => [[]]
  | c :: cs =>
    if c = '\n' then [] :: splitNL cs
    else
      match splitNL cs with
      | t :: ts => (c :: t) :: ts
      | [] => [[c]]

/-- Inverse of `splitNL`: rejoin lines with newline separators. -/
def unsplitNL : List (List Char) → List Char
  | [] => []
  | [l] => l
  | l :: ls => l ++ '\n' :: unsplitNL ls

/-- Modelled from the spec: the decoded content of a persisted batch
descriptor — row count, byte count and the ordered member path list
(spec sections 3 and 6, persisted state layout). -/
structure DescriptorData where
  total_rows : Nat
  total_bytes : Nat
  files : List String
  deriving DecidableEq

/-- Modelled from the spec: the `MalformedDescriptor` failure condition of the
codec — a non-integer header or a file list that cannot be read to completion
(spec sections 4.2 and 7). -/
inductive DescError
  | badHeader
  | truncated
  deriving DecidableEq

/-- Modelled from the spec: `serialize(batch)` produces the textual
`current_batch.txt` encoding — `total_rows`, then `total_bytes`, then each
member path on its own line, in member order (spec sections 4.2 and 6).
The implementation is not part of this source tree; only the declaration
`void serialize()` is. -/
def DistributedAsyncInsertBatch.serialize (b : DistributedAsyncInsertBatch) :
    List Char :=
  natChars b.total_rows
    ++ '\n' :: (natChars b.total_bytes
    ++ '\n' :: (b.files.map (fun p => p.data ++ ['\n'])).flatten)

/-- Modelled from the spec: `deserialize(bytes)` parses the two integer header
lines and then the newline-terminated member path list; a non-integer header
or an unterminated final record is a `MalformedDescriptor` failure
(spec sections 4.2, 6 and 7). -/
def deserialize (cs : List Char) : Except DescError DescriptorData :=
  match splitNL cs with
  | l1 :: l2 :: rest =>
    match parseNat l1, parseNat l2 with
    | some r, some bt =>
      if rest.getLast? = some [] then
        .ok ⟨r, bt, rest.dropLast.map (fun l => String.mk l)⟩
      else .error .truncated
    | _, _ => .error .badHeader
  | _ => .error .truncated

/-- Modelled from the spec: an input is a well-formed descriptor when it is
two parseable integer header lines followed by newline-terminated member
records (spec section 6). -/
def WellFormedDescriptor (cs : List Char) : Prop :=
  ∃ (l1 l2 : List Char) (ps : List (List Char)),
    (parseNat l1).isSome = true ∧ (parseNat l2).isSome = true ∧
    cs = l1 ++ '\n' :: (l2 ++ '\n' :: (ps.map (fun l => l ++ ['\n'])).flatten)

/-! ### Validity and recovery -/

/-- Modelled from the spec: `valid()` — do all member files still exist on
disk with a readable size (spec section 4.4)?  The filesystem is abstracted
as a map from path to the readable size of an existing file. -/
def DistributedAsyncInsertBatch.valid (b : DistributedAsyncInsertBatch)
    (fs : String → Option Nat) : Bool :=
  b.files.all (fun p => (fs p).isSome)

/-- Modelled from the spec: the outcome of the recovery procedure
(spec section 4.4). -/
inductive RecoveryResult
  | noBatch
  | resumed (b : DistributedAsyncInsertBatch)
  | discarded
  deriving DecidableEq

/-- Modelled from the spec: the recovery procedure — if no descriptor is
present, no recovery is needed; otherwise deserialize it, and if `valid()`
holds, resume a batch with `recovered = true` and the persisted membership
and totals, else discard the descriptor (spec section 4.4). -/
def recover (persisted : Option (List Char)) (fs : String → Option Nat) :
    RecoveryResult :=
  match persisted with
  | none => .noBatch
  | some cs =>
    match deserialize cs with
    | .error _ => .discarded
    | .ok d =>
      let b : DistributedAsyncInsertBatch :=
        { total_rows := d.total_rows, total_bytes := d.total_bytes,
          files := d.files, recovered := true }
      if b.valid fs then .resumed b else .discarded

/-! ### Send protocol -/

/-- Modelled from the spec: the observable actions of a send pass, in order —
an attempted combined batch send, an attempted individual file send, the
deletion of a member file, and the deletion of the descriptor
(spec section 4.3). -/
inductive Event
  | sentBatch
  | sentFile (p : String)
  | deleteFile (p : String)
  | deleteDescriptor
  deriving DecidableEq

/-- Modelled from the spec: the terminal state reached by one `send()` call
(spec sections 4.3 and 4.4, state machine). -/
inductive SendOutcome
  | batchNotReady
  | delivered
  | perFileDelivered
  | retryPending
  deriving DecidableEq

/-- Modelled from the spec: the connection abstraction supplied by the
external collaborator — whether the combined batch send succeeds, and whether
the individual send of a given file succeeds (spec section 6). -/
structure SendEnv where
  batchOk : Bool
  fileOk : String → Bool

/-- Modelled from the spec: `send()` (spec section 4.3).  A recovered batch
that is not `valid()` fails fast with `BatchNotReady` and performs nothing.
Otherwise the combined `sendBatch()` is attempted; on success every member
file is deleted and then the descriptor is deleted, in that order.  On
failure, if `split_batch_on_failure` is set, `sendSeparateFiles()` sends each
member individually, deleting each successfully delivered file immediately
and leaving each failed file in place, and the descriptor no longer
references the removed files afterwards; if the flag is not set, the batch
and descriptor are left untouched for a later whole-batch retry.  The
implementation is not part of this source tree; only the declarations
`send`, `sendBatch` and `sendSeparateFiles` are. -/
def DistributedAsyncInsertBatch.send (b : DistributedAsyncInsertBatch)
    (fs : String → Option Nat) (env : SendEnv) : List Event × SendOutcome :=
  if b.recovered && !(b.valid fs) then ([], .batchNotReady)
  else if env.batchOk then
    (Event.sentBatch :: (b.files.map Event.deleteFile ++ [Event.deleteDescriptor]),
     .delivered)
  else if b.split_batch_on_failure then
    ((b.files.map (fun p =>
        if env.fileOk p then [Event.sentFile p, Event.deleteFile p]
        else [Event.sentFile p])).flatten ++ [Event.deleteDescriptor],
     .perFileDelivered)
  else ([Event.sentBatch], .retryPending)

/-- Modelled from the spec: the on-disk state of one spool directory — the
member files present and the contents of the descriptor file, if it exists
(spec sections 3 and 6). -/
structure SpoolState where
  present : List String
  descriptor : Option (List Char)

/-- Modelled from the spec: the effect of one observable action on the spool
directory (spec section 6, filesystem interface). -/
def applyEvent (st : SpoolState) : Event → SpoolState
  | .deleteFile p => { st with present := st.present.filter (fun q => q ≠ p) }
  | .deleteDescriptor => { st with descriptor := none }
  | _ => st

/-- Modelled from the spec: the effect of a sequence of observable actions. -/
def applyEvents (st : SpoolState) (es : List Event) : SpoolState :=
  es.foldl applyEvent st

/-! ### Azure Blob Storage endpoint configuration (`AzureBlobStorageAuth.cpp`) -/

/-- The single error kind thrown by the endpoint validation functions
(`ErrorCodes::BAD_ARGUMENTS`, `AzureBlobStorageAuth.cpp` lines 17-20). -/
inductive AzureError
  | badArguments
  deriving DecidableEq

/-- Mirror of `struct AzureBlobStorageEndpoint`
(`AzureBlobStorageAuth.cpp` lines 22-27). -/
structure AzureBlobStorageEndpoint where
  storage_account_url : String
  container_name : String
  container_already_exists : Option Bool
  deriving DecidableEq

/-- The configuration keys read by `processAzureBlobStorageEndpoint`
(`AzureBlobStorageAuth.cpp` lines 58-82): each `config.has`/`getString`
access of a key under the prefix is modelled by the corresponding optional
field. -/
structure AzureConfig where
  storage_account_url : Option String := none
  connection_string : Option String := none
  endpoint : Option String := none
  container_name : Option String := none
  container_already_exists : Option Bool := none

/-- Character class `[a-z0-9-.:]` of the storage-account URL pattern
(`AzureBlobStorageAuth.cpp` line 32). -/
def isUrlHostChar (c : Char) : Bool :=
  ('a' ≤ c && c ≤ 'z') || ('0' ≤ c && c ≤ '9') || c = '-' || c = '.' || c = ':'

/-- Character class `[a-z0-9]` of the storage-account URL pattern
(`AzureBlobStorageAuth.cpp` line 32). -/
def isUrlPathChar (c : Char) : Bool :=
  ('a' ≤ c && c ≤ 'z') || ('0' ≤ c && c ≤ '9')

/-- Matcher for the suffix `[a-z0-9]*(()|/)` of the storage-account URL
pattern: optional path characters then an optional final slash. -/
def matchPathTail : List Char → Bool
  | [] => true
  | c :: t => if c = '/' then t.isEmpty else isUrlPathChar c && matchPathTail t

/-- Matcher for the suffix `(()|/)[a-z0-9]*(()|/)` of the storage-account URL
pattern: optional separating slash, then `matchPathTail`. -/
def matchSlashPath : List Char → Bool
  | [] => true
  | c :: t => if c = '/' then matchPathTail t else matchPathTail (c :: t)

/-- Matcher for `[a-z0-9-.:]*(()|/)[a-z0-9]*(()|/)`: the rest of the host
part followed by the path part of the storage-account URL pattern. -/
def matchHostRest : List Char → Bool
  | [] => true
  | c :: t => matchSlashPath (c :: t) || (isUrlHostChar c && matchHostRest t)

/-- Matcher for `[a-z0-9-.:]+(()|/)[a-z0-9]*(()|/)`: at least one host
character, then `matchHostRest`. -/
def matchHostPlus : List Char → Bool
  | [] => false
  | c :: t => isUrlHostChar c && matchHostRest t

/-- Matcher for the literal `://` and the remainder of the storage-account
URL pattern. -/
def matchSchemeSep : List Char → Bool
  | ':' :: '/' :: '/' :: rest => matchHostPlus rest
  | _ => false

/-- Full match of a string against the RE2 pattern
`http(()|s)://[a-z0-9-.:]+(()|/)[a-z0-9]*(()|/)` of
`validateStorageAccountUrl` (`AzureBlobStorageAuth.cpp` line 32); the
optional `s` branch is deterministic because `s` cannot begin `://`. -/
def storageAccountUrlMatch (s : String) : Bool :=
  match s.data with
  | 'h' :: 't' :: 't' :: 'p' :: 's' :: rest => matchSchemeSep rest
  | 'h' :: 't' :: 't' :: 'p' :: rest => matchSchemeSep rest
  | _ => false

/-- Full match of a string against the RE2 pattern `[a-z][a-z0-9-]+` of
`validateContainerName` (`AzureBlobStorageAuth.cpp` line 48): one lowercase
letter, then at least one character from `[a-z0-9-]`. -/
def containerNamePattern (s : String) : Bool :=
  match s.data with
  | [] => false
  | c :: rest =>
    ('a' ≤ c && c ≤ 'z') && !rest.isEmpty
      && rest.all (fun d => ('a' ≤ d && d ≤ 'z') || ('0' ≤ d && d ≤ '9') || d = '-')

/-- Embedding of `validateStorageAccountUrl`
(`AzureBlobStorageAuth.cpp` lines 30-38): throws `BAD_ARGUMENTS` unless the
URL fully matches the pattern. -/
def validateStorageAccountUrl (storage_account_url : String) :
    Except AzureError Unit :=
  if storageAccountUrlMatch storage_account_url then .ok ()
  else .error .badArguments

/-- Embedding of `validateContainerName`
(`AzureBlobStorageAuth.cpp` lines 41-55): throws `BAD_ARGUMENTS` when the
length is outside `[3, 64]`, then when the name does not fully match the
container-name pattern. -/
def validateContainerName (container_name : String) : Except AzureError Unit :=
  if container_name.length < 3 || 64 < container_name.length then
    .error .badArguments
  else if containerNamePattern container_name then .ok ()
  else .error .badArguments

/-- Embedding of `processAzureBlobStorageEndpoint`
(`AzureBlobStorageAuth.cpp` lines 58-82): prefer `storage_account_url`
(validated), else `connection_string`, else `endpoint`, else throw; then
validate the container name (default `default-container`) and return the
endpoint record. -/
def processAzureBlobStorageEndpoint (config : AzureConfig) :
    Except AzureError AzureBlobStorageEndpoint :=
  let urlStep : Except AzureError String :=
    match config.storage_account_url with
    | some url =>
      match validateStorageAccountUrl url with
      | .ok _ => .ok url
      | .error e => .error e
    | none =>
      match config.connection_string with
      | some s => .ok s
      | none =>
        match config.endpoint with
        | some s => .ok s
        | none => .error .badArguments
  match urlStep with
  | .error e => .error e
  | .ok storage_url =>
    let container_name := config.container_name.getD "default-container"
    match validateContainerName container_name with
    | .error e => .error e
    | .ok _ =>
      .ok ⟨storage_url, container_name, config.container_already_exists⟩

/-- Modelled from the spec: the correspondence between a batch accumulator
and the pending files it has accepted — the member paths are the paths of the accepted
files in order, and the running sums are the sums of their own counts
(spec sections 3 and 8). -/
def BatchInv (b : DistributedAsyncInsertBatch) (acc : List PendingFile) : Prop :=
  b.files = acc.map PendingFile.path
    ∧ b.total_rows = (acc.map PendingFile.rows).sum
    ∧ b.total_bytes = (acc.map PendingFile.bytes).sum

/-! ## Helper lemmas -/

theorem natCharsAux_zero : ∀ fuel, natCharsAux fuel 0 = [] := by
  intro fuel
  cases fuel <;> simp [natCharsAux]

theorem digitChar_isDigit : ∀ d, d < 10 → isDigitChar (digitChar d) = true := by
  decide

theorem charDigit_digitChar : ∀ d, d < 10 → charDigit (digitChar d) = d := by
  decide

theorem digitChar_ne_newline : ∀ d, d < 10 → digitChar d ≠ '\n' := by
  decide

theorem natCharsAux_spec : ∀ (fuel n : Nat), 0 < n → n ≤ fuel →
    natCharsAux fuel n ≠ []
      ∧ (natCharsAux fuel n).all isDigitChar = true
      ∧ ∀ a, (natCharsAux fuel n).foldl (fun a c => a * 10 + charDigit c) a
          = a * 10 ^ (natCharsAux fuel n).length + n := by
  intro fuel
  induction fuel with
  | zero => intro n hn hle; omega
  | succ fuel ih =>
    intro n hn hle
    have hne : n ≠ 0 := Nat.pos_iff_ne_zero.mp hn
    rw [natCharsAux, if_neg hne]
    have hmod : n % 10 < 10 := Nat.mod_lt _ (by norm_num)
    by_cases hq : n / 10 = 0
    · have hlt : n < 10 := (Nat.div_eq_zero_iff (by norm_num)).mp hq
      rw [hq, natCharsAux_zero]
      refine ⟨by simp, by simp [digitChar_isDigit _ hmod], ?_⟩
      intro a
      simp only [List.nil_append, List.foldl_cons, List.foldl_nil,
        List.length_cons, List.length_nil]
      rw [charDigit_digitChar _ hmod, Nat.mod_eq_of_lt hlt]
      norm_num
    · have hqlt : n / 10 < n := Nat.div_lt_self hn (by norm_num)
      have hqle : n / 10 ≤ fuel := by omega
      obtain ⟨h1, h2, h3⟩ := ih (n / 10) (Nat.pos_iff_ne_zero.mpr hq) hqle
      refine ⟨by simp, ?_, ?_⟩
      · simp only [List.all_append, h2, Bool.true_and, List.all_cons,
          digitChar_isDigit _ hmod, List.all_nil, Bool.and_true]
      · intro a
        rw [List.foldl_append, h3 a]
        simp only [List.foldl_cons, List.foldl_nil, List.length_append,
          List.length_cons, List.length_nil, charDigit_digitChar _ hmod]
        have : n / 10 * 10 + n % 10 = n := by omega
        rw [pow_succ]
        ring_nf
        omega

theorem parseNat_natChars (n : Nat) : parseNat (natChars n) = some n := by
  by_cases h : n = 0
  · subst h; decide
  · obtain ⟨h1, h2, h3⟩ :=
      natCharsAux_spec (n + 1) n (Nat.pos_iff_ne_zero.mpr h) (by omega)
    rw [natChars, if_neg h, parseNat,
      if_neg (by simpa [List.isEmpty_iff] using h1), if_pos h2, h3 0]
    simp

theorem natChars_no_newline (n : Nat) : '\n' ∉ natChars n := by
  by_cases h : n = 0
  · subst h; decide
  · rw [natChars, if_neg h]
    obtain ⟨h1, h2, h3⟩ :=
      natCharsAux_spec (n + 1) n (Nat.pos_iff_ne_zero.mpr h) (by omega)
    intro hmem
    have := List.all_eq_true.mp h2 _ hmem
    simp [isDigitChar] at this

theorem splitNL_ne_nil : ∀ cs, splitNL cs ≠ [] := by
  intro cs
  induction cs with
  | nil => simp [splitNL]
  | cons c cs ih =>
    rw [splitNL]
    by_cases h : c = '\n'
    · simp [h]
    · rw [if_neg h]
      cases hs : splitNL cs with
      | nil => exact absurd hs ih
      | cons t ts => simp

theorem splitNL_append : ∀ (l r : List Char), '\n' ∉ l →
    splitNL (l ++ '\n' :: r) = l :: splitNL r := by
  intro l
  induction l with
  | nil => intro r _; simp [splitNL]
  | cons c l ih =>
    intro r hnl
    have hc : c ≠ '\n' := fun h => hnl (by simp [h])
    have hl : '\n' ∉ l := fun h => hnl (List.mem_cons_of_mem _ h)
    rw [List.cons_append, splitNL, if_neg hc, ih r hl]

theorem splitNL_flatten : ∀ (ps : List (List Char)),
    (∀ l ∈ ps, '\n' ∉ l) →
    splitNL ((ps.map (fun l => l ++ ['\n'])).flatten) = ps ++ [[]] := by
  intro ps
  induction ps with
  | nil => intro _; simp [splitNL]
  | cons p ps ih =>
    intro h
    have hp : '\n' ∉ p := h p (List.mem_cons_self _ _)
    have hps : ∀ l ∈ ps, '\n' ∉ l := fun l hl => h l (List.mem_cons_of_mem _ hl)
    simp only [List.map_cons, List.flatten_cons, List.append_assoc,
      List.singleton_append]
    rw [splitNL_append p _ hp, ih hps]
    simp

theorem unsplitNL_singleton (l : List Char) : unsplitNL [l] = l := rfl

theorem unsplitNL_cons_cons (l t : List Char) (ts : List (List Char)) :
    unsplitNL (l :: t :: ts) = l ++ '\n' :: unsplitNL (t :: ts) := rfl

theorem unsplitNL_splitNL : ∀ cs, unsplitNL (splitNL cs) = cs := by
  intro cs
  induction cs with
  | nil => simp [splitNL, unsplitNL]
  | cons c cs ih =>
    rw [splitNL]
    by_cases h : c = '\n'
    · rw [if_pos h]
      cases hs : splitNL cs with
      | nil => exact absurd hs (splitNL_ne_nil cs)
      | cons t ts =>
        rw [unsplitNL_cons_cons, ← hs, ih, h]
        simp
    · rw [if_neg h]
      cases hs : splitNL cs with
      | nil => exact absurd hs (splitNL_ne_nil cs)
      | cons t ts =>
        cases ts with
        | nil =>
          have : unsplitNL [t] = cs := by rw [← hs, ih]
          rw [unsplitNL_singleton] at this
          simp [unsplitNL_singleton, this]
        | cons t2 ts2 =>
          have : unsplitNL (t :: t2 :: ts2) = cs := by rw [← hs, ih]
          rw [unsplitNL_cons_cons] at this ⊢
          simp only [List.cons_append]
          rw [this]

theorem splitNL_last : ∀ (cs : List Char), cs ≠ [] → cs.getLast? ≠ some '\n' →
    ∃ l, (splitNL cs).getLast? = some l ∧ l ≠ [] := by
  intro cs
  induction cs with
  | nil => intro h; exact absurd rfl h
  | cons c cs ih =>
    intro _ hlast
    cases cs with
    | nil =>
      have hc : c ≠ '\n' := by
        intro h
        exact hlast (by simp [h])
      rw [splitNL, if_neg hc]
      exact ⟨[c], by simp [splitNL], by simp⟩
    | cons d ds =>
      have hlast' : (d :: ds).getLast? ≠ some '\n' := by
        rwa [List.getLast?_cons_cons] at hlast
      obtain ⟨l, hl, hlne⟩ := ih (by simp) hlast'
      rw [splitNL]
      by_cases hc : c = '\n'
      · rw [if_pos hc]
        cases hs : splitNL (d :: ds) with
        | nil => exact absurd hs (splitNL_ne_nil _)
        | cons t ts =>
          rw [hs] at hl
          exact ⟨l, by rw [List.getLast?_cons_cons]; exact hl, hlne⟩
      · rw [if_neg hc]
        cases hs : splitNL (d :: ds) with
        | nil => exact absurd hs (splitNL_ne_nil _)
        | cons t ts =>
          rw [hs] at hl
          cases ts with
          | nil => exact ⟨c :: t, by simp, by simp⟩
          | cons u us =>
            rw [List.getLast?_cons_cons] at hl
            exact ⟨l, by rw [List.getLast?_cons_cons]; exact hl, hlne⟩

theorem getLast?_decomp {α : Type} : ∀ (l : List α) (a : α),
    l.getLast? = some a → l = l.dropLast ++ [a] := by
  intro l
  induction l with
  | nil => intro a h; simp at h
  | cons x xs ih =>
    intro a h
    cases xs with
    | nil =>
      simp only [List.getLast?_singleton, Option.some.injEq] at h
      simp [h]
    | cons y ys =>
      rw [List.getLast?_cons_cons] at h
      have := ih a h
      rw [List.dropLast_cons₂, List.cons_append, ← this]

theorem unsplitNL_concat_nil : ∀ (ps : List (List Char)),
    unsplitNL (ps ++ [[]]) = (ps.map (fun l => l ++ ['\n'])).flatten := by
  intro ps
  induction ps with
  | nil => rfl
  | cons p ps ih =>
    cases h : ps ++ [[]] with
    | nil => simp at h
    | cons q qs =>
      rw [List.cons_append, h, unsplitNL_cons_cons, ← h, ih]
      simp

theorem deserialize_serialize (b : DistributedAsyncInsertBatch)
    (h : ∀ p ∈ b.files, '\n' ∉ p.data) :
    deserialize b.serialize = .ok ⟨b.total_rows, b.total_bytes, b.files⟩ := by
  have hmap : b.files.map (fun p => p.data ++ ['\n'])
      = (b.files.map String.data).map (fun l => l ++ ['\n']) := by
    rw [List.map_map]; rfl
  have hlines : ∀ l ∈ b.files.map String.data, '\n' ∉ l := by
    intro l hl
    rw [List.mem_map] at hl
    obtain ⟨p, hp, rfl⟩ := hl
    exact h p hp
  have h1 : splitNL b.serialize
      = natChars b.total_rows :: natChars b.total_bytes
          :: (b.files.map String.data ++ [[]]) := by
    rw [DistributedAsyncInsertBatch.serialize,
      splitNL_append _ _ (natChars_no_newline _),
      splitNL_append _ _ (natChars_no_newline _),
      hmap, splitNL_flatten _ hlines]
  rw [deserialize, h1]
  simp only [parseNat_natChars, List.getLast?_concat, List.dropLast_concat,
    List.map_map, if_true, reduceCtorEq, reduceIte]
  have : (fun l => String.mk l) ∘ String.data = id := by
    funext p; rfl
  rw [this, List.map_id]

theorem applyEvents_cons (st : SpoolState) (e : Event) (es : List Event) :
    applyEvents st (e :: es) = applyEvents (applyEvent st e) es := rfl

theorem applyEvents_present_mem : ∀ (es : List Event) (st : SpoolState)
    (q : String),
    q ∈ (applyEvents st es).present
      ↔ (q ∈ st.present ∧ Event.deleteFile q ∉ es) := by
  intro es
  induction es with
  | nil => intro st q; simp [applyEvents]
  | cons e es ih =>
    intro st q
    rw [applyEvents_cons, ih]
    cases e with
    | deleteFile p =>
      by_cases hqp : q = p
      · subst hqp
        simp [applyEvent]
      · simp [applyEvent, List.mem_filter, hqp]
    | deleteDescriptor => simp [applyEvent]
    | sentBatch => simp [applyEvent]
    | sentFile p => simp [applyEvent]

theorem applyEvents_descriptor : ∀ (es : List Event) (st : SpoolState),
    (applyEvents st es).descriptor
      = if Event.deleteDescriptor ∈ es then none else st.descriptor := by
  intro es
  induction es with
  | nil => intro st; simp [applyEvents]
  | cons e es ih =>
    intro st
    rw [applyEvents_cons, ih]
    cases e with
    | deleteFile p => simp [applyEvent]
    | deleteDescriptor => simp [applyEvent]
    | sentBatch => simp [applyEvent]
    | sentFile p => simp [applyEvent]

theorem acceptAll_cons (th : BatchThresholds) (b : DistributedAsyncInsertBatch)
    (f : PendingFile) (fs : List PendingFile) :
    acceptAll th b (f :: fs) = acceptAll th (accept th b f).2 fs := rfl

theorem batchInv_addFile (b : DistributedAsyncInsertBatch)
    (acc : List PendingFile) (f : PendingFile) (h : BatchInv b acc) :
    BatchInv (addFile b f) (acc ++ [f]) := by
  obtain ⟨h1, h2, h3⟩ := h
  refine ⟨?_, ?_, ?_⟩ <;> simp [addFile, h1, h2, h3]

theorem acceptAll_inv : ∀ (fs : List PendingFile) (th : BatchThresholds)
    (b : DistributedAsyncInsertBatch) (acc : List PendingFile),
    BatchInv b acc →
    ∃ acc₂, List.Sublist acc₂ fs ∧ BatchInv (acceptAll th b fs) (acc ++ acc₂) := by
  intro fs
  induction fs with
  | nil =>
    intro th b acc h
    exact ⟨[], List.nil_sublist _, by simpa [acceptAll]⟩
  | cons f fs ih =>
    intro th b acc h
    rw [acceptAll_cons]
    by_cases hc : (!b.files.isEmpty && wouldExceed th b f) = true
    · have hb : (accept th b f).2 = b := by rw [accept, if_pos hc]
      rw [hb]
      obtain ⟨acc₂, hs, hinv⟩ := ih th b acc h
      exact ⟨acc₂, List.Sublist.cons f hs, hinv⟩
    · have hb : (accept th b f).2 = addFile b f := by rw [accept, if_neg hc]
      rw [hb]
      obtain ⟨acc₂, hs, hinv⟩ :=
        ih th (addFile b f) (acc ++ [f]) (batchInv_addFile b acc f h)
      exact ⟨f :: acc₂, List.Sublist.cons₂ f hs,
        by simpa [List.append_assoc] using hinv⟩

theorem validateContainerName_error (n : String) :
    (∃ e, validateContainerName n = Except.error e)
      ↔ (¬(3 ≤ n.length ∧ n.length ≤ 64) ∨ containerNamePattern n = false) := by
  rw [validateContainerName]
  by_cases h1 : (n.length < 3 || 64 < n.length) = true
  · rw [if_pos h1]
    simp only [Bool.or_eq_true, decide_eq_true_eq] at h1
    constructor
    · intro _
      left
      omega
    · intro _
      exact ⟨AzureError.badArguments, rfl⟩
  · rw [if_neg h1]
    simp only [Bool.or_eq_true, decide_eq_true_eq, not_or, not_lt] at h1
    cases h2 : containerNamePattern n with
    | true =>
      simp
      omega
    | false =>
      simp
      exact ⟨AzureError.badArguments, trivial⟩

/-! ## Claim theorems -/

/-- Claim C1: `valid()` returns true iff every member file listed in the
batch still exists on disk with a readable size; when `valid()` is true,
recovery from the persisted descriptor reconstructs a batch with
`recovered = true` and membership and totals identical to those persisted,
and when at least one member is missing, recovery discards the descriptor
and does not attempt to send. -/
theorem C1_recovery_from_descriptor :
    ∀ (b : DistributedAsyncInsertBatch) (fs : String → Option Nat),
    (∀ p ∈ b.files, '\n' ∉ p.data) →
    (b.valid fs = true ↔ ∀ p ∈ b.files, (fs p).isSome = true) ∧
    (b.valid fs = true →
      recover (some b.serialize) fs
        = RecoveryResult.resumed
            { total_rows := b.total_rows, total_bytes := b.total_bytes,
              files := b.files, recovered := true }) ∧
    (b.valid fs = false →
      recover (some b.serialize) fs = RecoveryResult.discarded) := by
  intro b fs h
  refine ⟨by simp [DistributedAsyncInsertBatch.valid, List.all_eq_true], ?_, ?_⟩
  · intro hv
    simp only [recover, deserialize_serialize b h]
    rw [if_pos]
    exact hv
  · intro hv
    simp only [recover, deserialize_serialize b h]
    rw [if_neg]
    rw [DistributedAsyncInsertBatch.valid] at hv ⊢
    simp only [hv]
    exact Bool.false_ne_true

/-- Witness for C1 at a concrete batch and filesystem: the descriptor of a
batch with one member resumes when the member exists. -/
theorem C1_witness :
    (DistributedAsyncInsertBatch.valid
        { total_rows := 3, total_bytes := 7, files := ["/x"] }
        (fun _ => some 7) = true
      ↔ ∀ p ∈ ({ total_rows := 3, total_bytes := 7, files := ["/x"] } :
          DistributedAsyncInsertBatch).files, ((fun _ => some 7) p).isSome = true) ∧
    (DistributedAsyncInsertBatch.valid
        { total_rows := 3, total_bytes := 7, files := ["/x"] }
        (fun _ => some 7) = true →
      recover (some (DistributedAsyncInsertBatch.serialize
          { total_rows := 3, total_bytes := 7, files := ["/x"] })) (fun _ => some 7)
        = RecoveryResult.resumed
            { total_rows := 3, total_bytes := 7, files := ["/x"], recovered := true }) ∧
    (DistributedAsyncInsertBatch.valid
        { total_rows := 3, total_bytes := 7, files := ["/x"] }
        (fun _ => some 7) = false →
      recover (some (DistributedAsyncInsertBatch.serialize
          { total_rows := 3, total_bytes := 7, files := ["/x"] })) (fun _ => some 7)
        = RecoveryResult.discarded) :=
  C1_recovery_from_descriptor
    { total_rows := 3, total_bytes := 7, files := ["/x"] }
    (fun _ => some 7) (by decide)

/-- Claim C2: for every batch, deserializing the serialization of the batch
yields identical `total_rows`, identical `total_bytes`, and the member paths
in the same order (the member paths are single-line, per the persisted
layout of one path per line). -/
theorem C2_descriptor_roundtrip :
    ∀ (b : DistributedAsyncInsertBatch), (∀ p ∈ b.files, '\n' ∉ p.data) →
    deserialize b.serialize
      = Except.ok ⟨b.total_rows, b.total_bytes, b.files⟩ :=
  fun b h => deserialize_serialize b h

/-- Witness for C2 at a concrete two-member batch. -/
theorem C2_witness :
    deserialize (DistributedAsyncInsertBatch.serialize
        { total_rows := 15, total_bytes := 1500, files := ["/spool/a", "/spool/b"] })
      = Except.ok ⟨15, 1500, ["/spool/a", "/spool/b"]⟩ :=
  C2_descriptor_roundtrip
    { total_rows := 15, total_bytes := 1500, files := ["/spool/a", "/spool/b"] }
    (by decide)

/-- Claim C3: on a successful whole-batch send, every member file is deleted
before the descriptor is deleted (member files first, descriptor second), so
once the batch is delivered the descriptor no longer exists and a recovery
pass started immediately afterwards finds no batch to resume. -/
theorem C3_success_deletes_files_before_descriptor :
    ∀ (b : DistributedAsyncInsertBatch) (fs : String → Option Nat)
      (env : SendEnv),
    env.batchOk = true → (b.recovered = true → b.valid fs = true) →
    (b.send fs env).2 = SendOutcome.delivered ∧
    (∃ pre, (b.send fs env).1
        = Event.sentBatch :: (pre ++ [Event.deleteDescriptor])
      ∧ (∀ p ∈ b.files, Event.deleteFile p ∈ pre)
      ∧ Event.deleteDescriptor ∉ pre) ∧
    (applyEvents ⟨b.files, some b.serialize⟩ (b.send fs env).1).descriptor
      = none ∧
    recover
        (applyEvents ⟨b.files, some b.serialize⟩ (b.send fs env).1).descriptor
        fs
      = RecoveryResult.noBatch := by
  intro b fs env hb hv
  have hguard : (b.recovered && !(b.valid fs)) = false := by
    cases hr : b.recovered
    · rfl
    · rw [hv hr]; rfl
  have hsend : b.send fs env
      = (Event.sentBatch
          :: (b.files.map Event.deleteFile ++ [Event.deleteDescriptor]),
         SendOutcome.delivered) := by
    rw [DistributedAsyncInsertBatch.send, hguard, hb]
    rfl
  have hdesc :
      (applyEvents ⟨b.files, some b.serialize⟩ (b.send fs env).1).descriptor
        = none := by
    rw [hsend, applyEvents_descriptor, if_pos]
    simp
  refine ⟨by rw [hsend], ?_, hdesc, by rw [hdesc]; rfl⟩
  refine ⟨b.files.map Event.deleteFile, by rw [hsend], ?_, ?_⟩
  · intro p hp
    exact List.mem_map_of_mem _ hp
  · simp [List.mem_map]

/-- Witness for C3: a successful combined send of a two-member batch deletes
both files before the descriptor and leaves nothing to recover. -/
theorem C3_witness :
    ((DistributedAsyncInsertBatch.send { files := ["/a", "/b"] }
        (fun _ => some 1) ⟨true, fun _ => true⟩).2 = SendOutcome.delivered ∧
    (∃ pre, (DistributedAsyncInsertBatch.send { files := ["/a", "/b"] }
          (fun _ => some 1) ⟨true, fun _ => true⟩).1
        = Event.sentBatch :: (pre ++ [Event.deleteDescriptor])
      ∧ (∀ p ∈ ({ files := ["/a", "/b"] } :
              DistributedAsyncInsertBatch).files, Event.deleteFile p ∈ pre)
      ∧ Event.deleteDescriptor ∉ pre) ∧
    (applyEvents
        ⟨["/a", "/b"],
         some (DistributedAsyncInsertBatch.serialize { files := ["/a", "/b"] })⟩
        (DistributedAsyncInsertBatch.send { files := ["/a", "/b"] }
          (fun _ => some 1) ⟨true, fun _ => true⟩).1).descriptor = none ∧
    recover
        (applyEvents
          ⟨["/a", "/b"],
           some (DistributedAsyncInsertBatch.serialize { files := ["/a", "/b"] })⟩
          (DistributedAsyncInsertBatch.send { files := ["/a", "/b"] }
            (fun _ => some 1) ⟨true, fun _ => true⟩).1).descriptor
        (fun _ => some 1)
      = RecoveryResult.noBatch) :=
  C3_success_deletes_files_before_descriptor { files := ["/a", "/b"] }
    (fun _ => some 1) ⟨true, fun _ => true⟩ rfl (by decide)

/-- Claim C4: when the combined send fails and `split_batch_on_failure` is
true, each member is sent individually; every file whose individual send
succeeds is deleted immediately and every file whose individual send fails
is left in place.  When `split_batch_on_failure` is false, the whole batch
and its descriptor are left untouched and no partial deletion occurs. -/
theorem C4_split_on_failure :
    ∀ (b : DistributedAsyncInsertBatch) (fs : String → Option Nat)
      (env : SendEnv) (d : Option (List Char)),
    env.batchOk = false → (b.recovered = true → b.valid fs = true) →
    (b.split_batch_on_failure = true →
      (b.send fs env).2 = SendOutcome.perFileDelivered ∧
      (∀ p ∈ b.files, env.fileOk p = true →
        ∃ l r, (b.send fs env).1
          = l ++ Event.sentFile p :: Event.deleteFile p :: r) ∧
      (∀ p, env.fileOk p = false →
        Event.deleteFile p ∉ (b.send fs env).1) ∧
      (∀ q, q ∈ (applyEvents ⟨b.files, d⟩ (b.send fs env).1).present
          ↔ (q ∈ b.files ∧ env.fileOk q = false))) ∧
    (b.split_batch_on_failure = false →
      b.send fs env = ([Event.sentBatch], SendOutcome.retryPending) ∧
      (∀ st, applyEvents st (b.send fs env).1 = st)) := by
  intro b fs env d hb hv
  have hguard : (b.recovered && !(b.valid fs)) = false := by
    cases hr : b.recovered
    · rfl
    · rw [hv hr]; rfl
  constructor
  · intro hsplit
    have hsend : b.send fs env
        = ((b.files.map (fun p =>
              if env.fileOk p then [Event.sentFile p, Event.deleteFile p]
              else [Event.sentFile p])).flatten ++ [Event.deleteDescriptor],
           SendOutcome.perFileDelivered) := by
      rw [DistributedAsyncInsertBatch.send, hguard, hb, hsplit]
      rfl
    have hmem : ∀ p, Event.deleteFile p ∈ (b.send fs env).1
        ↔ (p ∈ b.files ∧ env.fileOk p = true) := by
      intro p
      rw [hsend]
      simp only [List.mem_append, List.mem_flatten, List.mem_map,
        List.mem_singleton]
      constructor
      · rintro (⟨bl, ⟨q, hq, rfl⟩, hbl⟩ | hdd)
        · by_cases hfq : env.fileOk q = true
          · rw [if_pos hfq] at hbl
            simp only [List.mem_cons, List.not_mem_nil, or_false] at hbl
            rcases hbl with hcon | hcon
            · exact absurd hcon (by simp)
            · obtain rfl : p = q := by
                simpa using hcon
              exact ⟨hq, hfq⟩
          · rw [if_neg hfq] at hbl
            simp at hbl
        · exact absurd hdd (by simp)
      · rintro ⟨hp, hf⟩
        left
        exact ⟨_, ⟨p, hp, rfl⟩, by rw [if_pos hf]; simp⟩
    refine ⟨by rw [hsend], ?_, ?_, ?_⟩
    · intro p hp hf
      obtain ⟨u, v, huv⟩ := List.append_of_mem hp
      refine ⟨(u.map (fun p =>
          if env.fileOk p then [Event.sentFile p, Event.deleteFile p]
          else [Event.sentFile p])).flatten,
        (v.map (fun p =>
          if env.fileOk p then [Event.sentFile p, Event.deleteFile p]
          else [Event.sentFile p])).flatten ++ [Event.deleteDescriptor], ?_⟩
      rw [hsend, huv]
      simp [hf, List.append_assoc]
    · intro p hpf hin
      obtain ⟨_, hf⟩ := (hmem p).mp hin
      rw [hpf] at hf
      exact Bool.false_ne_true hf
    · intro q
      rw [applyEvents_present_mem]
      constructor
      · rintro ⟨hq, hnotdel⟩
        refine ⟨hq, ?_⟩
        cases hfq : env.fileOk q
        · rfl
        · exact absurd ((hmem q).mpr ⟨hq, hfq⟩) hnotdel
      · rintro ⟨hq, hfq⟩
        refine ⟨hq, fun hin => ?_⟩
        obtain ⟨_, hf⟩ := (hmem q).mp hin
        rw [hfq] at hf
        exact Bool.false_ne_true hf
  · intro hsplit
    have hsend : b.send fs env = ([Event.sentBatch], SendOutcome.retryPending) := by
      rw [DistributedAsyncInsertBatch.send, hguard, hb, hsplit]
      rfl
    exact ⟨hsend, fun st => by rw [hsend]; rfl⟩

/-- Witness for C4 at the three-file scenario (files f1, f3 deliver
individually, f2 fails) and at a batch with splitting disabled. -/
theorem C4_witness :
    ((DistributedAsyncInsertBatch.send { files := ["f1", "f2", "f3"] }
        (fun _ => some 1) ⟨false, fun p => p != "f2"⟩).2
      = SendOutcome.perFileDelivered ∧
     (∀ q, q ∈ (applyEvents ⟨["f1", "f2", "f3"], none⟩
          (DistributedAsyncInsertBatch.send { files := ["f1", "f2", "f3"] }
            (fun _ => some 1) ⟨false, fun p => p != "f2"⟩).1).present
        ↔ (q ∈ ({ files := ["f1", "f2", "f3"] } :
            DistributedAsyncInsertBatch).files ∧ (fun p => p != "f2") q = false))) ∧
    DistributedAsyncInsertBatch.send
        { files := ["f1", "f2", "f3"], split_batch_on_failure := false }
        (fun _ => some 1) ⟨false, fun p => p != "f2"⟩
      = ([Event.sentBatch], SendOutcome.retryPending) :=
  ⟨(fun h => ⟨h.1, h.2.2.2⟩)
    ((C4_split_on_failure { files := ["f1", "f2", "f3"] } (fun _ => some 1)
        ⟨false, fun p => p != "f2"⟩ none rfl (by decide)).1 rfl),
   ((C4_split_on_failure
        { files := ["f1", "f2", "f3"], split_batch_on_failure := false }
        (fun _ => some 1) ⟨false, fun p => p != "f2"⟩ none rfl (by decide)).2
      rfl).1⟩

/-- Claim C5: `accept` returns false and leaves the member list and totals
unchanged when adding the file would push a total past the configured
thresholds, unless the batch is currently empty, in which case it accepts;
and the concrete scenario with files `a` (10 rows, 1000 bytes),
`b` (5 rows, 500 bytes), `c` (10 rows) and a 20-row threshold behaves as
specified. -/
theorem C5_accept_contract :
    (∀ (th : BatchThresholds) (b : DistributedAsyncInsertBatch)
        (f : PendingFile),
      b.files ≠ [] → wouldExceed th b f = true → accept th b f = (false, b)) ∧
    (∀ (th : BatchThresholds) (b : DistributedAsyncInsertBatch)
        (f : PendingFile),
      b.files = [] → accept th b f = (true, addFile b f)) ∧
    (accept ⟨1000000, 20, 1000000⟩ {} ⟨"a", 10, 1000⟩
        = (true, { total_rows := 10, total_bytes := 1000, files := ["a"] }) ∧
     accept ⟨1000000, 20, 1000000⟩
        { total_rows := 10, total_bytes := 1000, files := ["a"] } ⟨"b", 5, 500⟩
        = (true, { total_rows := 15, total_bytes := 1500, files := ["a", "b"] }) ∧
     isEnoughSize ⟨1000000, 20, 1000000⟩
        { total_rows := 15, total_bytes := 1500, files := ["a", "b"] } = false ∧
     accept ⟨1000000, 20, 1000000⟩
        { total_rows := 15, total_bytes := 1500, files := ["a", "b"] } ⟨"c", 10, 0⟩
        = (false, { total_rows := 15, total_bytes := 1500, files := ["a", "b"] })) := by
  refine ⟨?_, ?_, by decide⟩
  · intro th b f hne hex
    rw [accept, if_pos]
    rw [hex]
    simp [List.isEmpty_iff, hne]
  · intro th b f hnil
    rw [accept, if_neg]
    simp [hnil]

/-- Witness for C5: a full batch rejects an overflowing file unchanged, and
an empty batch accepts an oversized file. -/
theorem C5_witness :
    (accept ⟨1000000, 20, 1000000⟩
        { total_rows := 15, total_bytes := 1500, files := ["a", "b"] } ⟨"c", 10, 0⟩
      = (false, { total_rows := 15, total_bytes := 1500, files := ["a", "b"] })) ∧
    (accept ⟨1000000, 20, 1000000⟩ {} ⟨"big", 999, 999999999⟩
      = (true, addFile {} ⟨"big", 999, 999999999⟩)) :=
  ⟨C5_accept_contract.1 _ _ _ (by decide) (by decide),
   C5_accept_contract.2.1 _ _ _ rfl⟩

/-- Claim C6: after every sequence of `accept` calls starting from an empty
batch, `total_rows` equals the sum of the row counts of the accepted members and
`total_bytes` equals the sum of their byte sizes, the members being exactly
the paths of the accepted files in order. -/
theorem C6_sum_invariant :
    ∀ (th : BatchThresholds) (fs : List PendingFile),
    ∃ accepted, List.Sublist accepted fs
      ∧ (acceptAll th {} fs).files = accepted.map PendingFile.path
      ∧ (acceptAll th {} fs).total_rows = (accepted.map PendingFile.rows).sum
      ∧ (acceptAll th {} fs).total_bytes = (accepted.map PendingFile.bytes).sum := by
  intro th fs
  obtain ⟨acc₂, hs, h1, h2, h3⟩ := acceptAll_inv fs th {} [] ⟨rfl, rfl, rfl⟩
  exact ⟨acc₂, hs, by simpa using h1, by simpa using h2, by simpa using h3⟩

/-- Claim C7: `deserialize` fails with a `MalformedDescriptor` condition
when the row or byte header fields are not parseable integers or when the
member file list cannot be read to completion (truncated write), and a
truncated or corrupt descriptor is never returned as a valid batch: every
successfully deserialized input is a well-formed descriptor. -/
theorem C7_deserialize_error_contract :
    (∀ (l rest : List Char), '\n' ∉ l → parseNat l = none →
      deserialize (l ++ '\n' :: rest) = Except.error DescError.badHeader) ∧
    (∀ (l1 l2 rest : List Char), '\n' ∉ l1 → '\n' ∉ l2 → parseNat l2 = none →
      deserialize (l1 ++ '\n' :: (l2 ++ '\n' :: rest))
        = Except.error DescError.badHeader) ∧
    (∀ (cs : List Char), cs.getLast? ≠ some '\n' →
      ∃ e, deserialize cs = Except.error e) ∧
    (∀ (cs : List Char) (dd : DescriptorData),
      deserialize cs = Except.ok dd → WellFormedDescriptor cs) := by
  refine ⟨?_, ?_, ?_, ?_⟩
  · intro l rest hnl hparse
    rw [deserialize, splitNL_append l rest hnl]
    cases hs : splitNL rest with
    | nil => exact absurd hs (splitNL_ne_nil rest)
    | cons t ts => simp [hparse]
  · intro l1 l2 rest h1 h2 hparse
    rw [deserialize, splitNL_append l1 _ h1, splitNL_append l2 _ h2]
    cases hp1 : parseNat l1 with
    | none => simp [hp1]
    | some r => simp [hp1, hparse]
  · intro cs hlast
    by_cases hne : cs = []
    · exact ⟨DescError.truncated, by rw [hne]; rfl⟩
    · obtain ⟨ll, hgl, hlne⟩ := splitNL_last cs hne hlast
      cases hs : splitNL cs with
      | nil => exact absurd hs (splitNL_ne_nil cs)
      | cons l1 ts =>
        rw [hs] at hgl
        cases ts with
        | nil => exact ⟨DescError.truncated, by rw [deserialize, hs]⟩
        | cons l2 rest =>
          rw [List.getLast?_cons_cons] at hgl
          cases hp1 : parseNat l1 with
          | none =>
            exact ⟨DescError.badHeader, by rw [deserialize, hs]; simp [hp1]⟩
          | some r =>
            cases hp2 : parseNat l2 with
            | none =>
              exact ⟨DescError.badHeader,
                by rw [deserialize, hs]; simp [hp1, hp2]⟩
            | some bt =>
              have hc : ¬ (rest.getLast? = some ([] : List Char)) := by
                cases rest with
                | nil => simp
                | cons u us =>
                  rw [List.getLast?_cons_cons] at hgl
                  rw [hgl]
                  simp only [Option.some.injEq]
                  exact fun h => hlne h
              exact ⟨DescError.truncated,
                by rw [deserialize, hs]; simp [hp1, hp2, hc]⟩
  · intro cs dd hok
    rw [deserialize] at hok
    cases hs : splitNL cs with
    | nil => exact absurd hs (splitNL_ne_nil cs)
    | cons l1 ts =>
      rw [hs] at hok
      cases ts with
      | nil => simp at hok
      | cons l2 rest =>
        cases hp1 : parseNat l1 with
        | none => simp [hp1] at hok
        | some r =>
          cases hp2 : parseNat l2 with
          | none => simp [hp1, hp2] at hok
          | some bt =>
            simp only [hp1, hp2] at hok
            by_cases hcond : rest.getLast? = some ([] : List Char)
            · have hdecomp := getLast?_decomp rest [] hcond
              refine ⟨l1, l2, rest.dropLast, by simp [hp1], by simp [hp2], ?_⟩
              have hcs : cs = unsplitNL (splitNL cs) := (unsplitNL_splitNL cs).symm
              rw [hs] at hcs
              have hrest_ne : rest ≠ [] := by
                intro h
                rw [h] at hcond
                simp at hcond
              obtain ⟨u, us, rfl⟩ := List.exists_cons_of_ne_nil hrest_ne
              rw [hcs, unsplitNL_cons_cons, unsplitNL_cons_cons]
              have hu : unsplitNL (u :: us)
                  = (((u :: us).dropLast).map (fun l => l ++ ['\n'])).flatten := by
                conv_lhs => rw [hdecomp]
                exact unsplitNL_concat_nil _
              rw [hu]
            · rw [if_neg hcond] at hok
              exact Except.noConfusion hok

/-- Witness for C7: a non-integer header, a bad second header, an
unterminated member record, and a well-formed input, each at a concrete
descriptor. -/
theorem C7_witness :
    deserialize ("abc".data ++ '\n' :: "5\n".data)
      = Except.error DescError.badHeader ∧
    deserialize ("12".data ++ '\n' :: ("x".data ++ '\n' :: "/a\n".data))
      = Except.error DescError.badHeader ∧
    (∃ e, deserialize ("12\n34\n/half".data) = Except.error e) ∧
    WellFormedDescriptor ("12\n34\n/a\n".data) :=
  ⟨C7_deserialize_error_contract.1 ("abc".data) ("5\n".data)
      (by decide) (by decide),
   C7_deserialize_error_contract.2.1 ("12".data) ("x".data) ("/a\n".data)
      (by decide) (by decide) (by decide),
   C7_deserialize_error_contract.2.2.1 ("12\n34\n/half".data) (by decide),
   C7_deserialize_error_contract.2.2.2 ("12\n34\n/a\n".data) ⟨12, 34, ["/a"]⟩
      (by decide)⟩

/-- Claim C8: for every recovered batch on which `valid()` is false, `send()`
fails fast with the `BatchNotReady` condition, performing no action at all
(in particular, no send is attempted). -/
theorem C8_send_not_ready :
    ∀ (b : DistributedAsyncInsertBatch) (fs : String → Option Nat)
      (env : SendEnv),
    b.recovered = true → b.valid fs = false →
    b.send fs env = ([], SendOutcome.batchNotReady) := by
  intro b fs env hr hv
  rw [DistributedAsyncInsertBatch.send, if_pos]
  rw [hr, hv]
  rfl

/-- Witness for C8: a recovered batch whose single member is missing fails
fast with `BatchNotReady`. -/
theorem C8_witness :
    DistributedAsyncInsertBatch.send
        { files := ["/gone"], recovered := true } (fun _ => none)
        ⟨true, fun _ => true⟩
      = ([], SendOutcome.batchNotReady) :=
  C8_send_not_ready { files := ["/gone"], recovered := true }
    (fun _ => none) ⟨true, fun _ => true⟩ rfl (by decide)

/-- Claim C10: a freshly constructed `DistributedAsyncInsertBatch` starts
with `total_rows = 0`, `total_bytes = 0`, an empty member list,
`recovered = false`, `split_batch_on_failure = true`, `fsync = false` and
`dir_fsync = false` (the default member values declared in the class), so by
default a failed combined send degrades to per-file sends. -/
theorem C10_default_state :
    (({} : DistributedAsyncInsertBatch).total_rows = 0 ∧
     ({} : DistributedAsyncInsertBatch).total_bytes = 0 ∧
     ({} : DistributedAsyncInsertBatch).files = [] ∧
     ({} : DistributedAsyncInsertBatch).recovered = false ∧
     ({} : DistributedAsyncInsertBatch).split_batch_on_failure = true ∧
     ({} : DistributedAsyncInsertBatch).fsync = false ∧
     ({} : DistributedAsyncInsertBatch).dir_fsync = false) ∧
    (∀ (fs : String → Option Nat) (env : SendEnv), env.batchOk = false →
      (DistributedAsyncInsertBatch.send {} fs env).2
        = SendOutcome.perFileDelivered) := by
  refine ⟨⟨rfl, rfl, rfl, rfl, rfl, rfl, rfl⟩, ?_⟩
  intro fs env hb
  rw [DistributedAsyncInsertBatch.send]
  rw [hb]
  rfl

/-- Claim C9: `processAzureBlobStorageEndpoint` throws `BAD_ARGUMENTS` if
and only if the configuration contains none of `storage_account_url`,
`connection_string` or `endpoint`, or the given `storage_account_url` does
not fully match the required URL pattern, or the container name (defaulting
to `default-container` when absent) has length outside `[3, 64]` or does not
fully match `[a-z][a-z0-9-]+`. -/
theorem C9_endpoint_validation :
    ∀ c : AzureConfig,
    (∃ e, processAzureBlobStorageEndpoint c = Except.error e)
      ↔ ((c.storage_account_url = none ∧ c.connection_string = none
            ∧ c.endpoint = none)
        ∨ (∃ u, c.storage_account_url = some u
            ∧ storageAccountUrlMatch u = false)
        ∨ ¬(3 ≤ (c.container_name.getD "default-container").length
            ∧ (c.container_name.getD "default-container").length ≤ 64)
        ∨ containerNamePattern (c.container_name.getD "default-container")
            = false) := by
  intro c
  obtain ⟨sau, cstr, ep, cn, cae⟩ := c
  have hcont := validateContainerName_error (cn.getD "default-container")
  cases sau with
  | some u =>
    cases hm : storageAccountUrlMatch u with
    | false =>
      constructor
      · intro _
        exact Or.inr (Or.inl ⟨u, rfl, hm⟩)
      · intro _
        exact ⟨AzureError.badArguments,
          by simp [processAzureBlobStorageEndpoint, validateStorageAccountUrl, hm]⟩
    | true =>
      cases hV : validateContainerName (cn.getD "default-container") with
      | error e =>
        constructor
        · intro _
          rcases hcont.mp ⟨e, hV⟩ with h | h
          · exact Or.inr (Or.inr (Or.inl h))
          · exact Or.inr (Or.inr (Or.inr h))
        · intro _
          exact ⟨e, by
            simp [processAzureBlobStorageEndpoint, validateStorageAccountUrl,
              hm, hV]⟩
      | ok uu =>
        constructor
        · rintro ⟨e, he⟩
          simp [processAzureBlobStorageEndpoint, validateStorageAccountUrl,
            hm, hV] at he
        · rintro (⟨h, _, _⟩ | ⟨u', hu', hm'⟩ | h | h)
          · exact Option.noConfusion h
          · have huu : u = u' := by simpa using hu'
            rw [← huu, hm] at hm'
            exact Bool.noConfusion hm'
          · obtain ⟨e, he⟩ := hcont.mpr (Or.inl h)
            rw [hV] at he
            exact Except.noConfusion he
          · obtain ⟨e, he⟩ := hcont.mpr (Or.inr h)
            rw [hV] at he
            exact Except.noConfusion he
  | none =>
    cases cstr with
    | some s =>
      cases hV : validateContainerName (cn.getD "default-container") with
      | error e =>
        constructor
        · intro _
          rcases hcont.mp ⟨e, hV⟩ with h | h
          · exact Or.inr (Or.inr (Or.inl h))
          · exact Or.inr (Or.inr (Or.inr h))
        · intro _
          exact ⟨e, by simp [processAzureBlobStorageEndpoint, hV]⟩
      | ok uu =>
        constructor
        · rintro ⟨e, he⟩
          simp [processAzureBlobStorageEndpoint, hV] at he
        · rintro (⟨_, h, _⟩ | ⟨u', hu', _⟩ | h | h)
          · exact Option.noConfusion h
          · exact Option.noConfusion hu'
          · obtain ⟨e, he⟩ := hcont.mpr (Or.inl h)
            rw [hV] at he
            exact Except.noConfusion he
          · obtain ⟨e, he⟩ := hcont.mpr (Or.inr h)
            rw [hV] at he
            exact Except.noConfusion he
    | none =>
      cases ep with
      | some s =>
        cases hV : validateContainerName (cn.getD "default-container") with
        | error e =>
          constructor
          · intro _
            rcases hcont.mp ⟨e, hV⟩ with h | h
            · exact Or.inr (Or.inr (Or.inl h))
            · exact Or.inr (Or.inr (Or.inr h))
          · intro _
            exact ⟨e, by simp [processAzureBlobStorageEndpoint, hV]⟩
        | ok uu =>
          constructor
          · rintro ⟨e, he⟩
            simp [processAzureBlobStorageEndpoint, hV] at he
          · rintro (⟨_, _, h⟩ | ⟨u', hu', _⟩ | h | h)
            · exact Option.noConfusion h
            · exact Option.noConfusion hu'
            · obtain ⟨e, he⟩ := hcont.mpr (Or.inl h)
              rw [hV] at he
              exact Except.noConfusion he
            · obtain ⟨e, he⟩ := hcont.mpr (Or.inr h)
              rw [hV] at he
              exact Except.noConfusion he
      | none =>
        constructor
        · intro _
          exact Or.inl ⟨rfl, rfl, rfl⟩
        · intro _
          exact ⟨AzureError.badArguments,
            by simp [processAzureBlobStorageEndpoint]⟩

/-- Witness for C10: a default batch whose combined send fails degrades to
the per-file path. -/
theorem C10_witness :
    (DistributedAsyncInsertBatch.send {} (fun _ => none)
        ⟨false, fun _ => false⟩).2 = SendOutcome.perFileDelivered :=
  C10_default_state.2 (fun _ => none) ⟨false, fun _ => false⟩ rfl

end DB
